import Mathlib

/-!
Verification of the silver-mobile wallet core (keystore, wallet, transaction
builder, security policy) against its natural-language specification.

The Rust source is embedded shallowly:

* Rust `String`/`&str` values are `List Char`; byte strings (`Vec<u8>`,
  `&[u8]`) are `List Nat` with every entry meant as one byte.
* `u64`/`u32` arithmetic is `Nat` with an explicit `% 2 ^ 64` / `% 2 ^ 32`
  exactly where the source performs a wrapping operation (release-build
  semantics of `+`, and the lossy `as u32` cast).
* Fallible functions return `Except MobileError`.
* External cryptographic primitives (blake3, sha256, argon2, the
  ChaCha20-Poly1305 AEAD opening, UTF-8 encode/decode) are not repository
  code; they are supplied through a `CryptoPrims` record whose proof fields
  state only their documented length contracts (a blake3 digest has 32
  bytes, a successful AEAD open removes the 16-byte tag, UTF-8 encoding
  never shrinks a string).  All theorems are parametric in the primitives,
  and a concrete executable instance `cPrims` is provided for evaluation.
* Sources of randomness and of the current time (salt, mnemonic word
  samples, UUID, `SystemTime::now`) are passed in as explicit arguments.
-/

/-- Interface of the external cryptographic primitives used by the source,
with their documented length contracts. -/
structure CryptoPrims where
  blake3 : List Nat → List Nat
  blake3_len : ∀ x, (blake3 x).length = 32
  sha256 : List Nat → List Nat
  argon2 : List Nat → List Nat → List Nat
  chachaOpen : List Nat → List Nat → List Nat → Option (List Nat)
  chachaOpen_len : ∀ k n c p, chachaOpen k n c = some p → p.length + 16 = c.length
  utf8 : List Char → List Nat
  utf8_len : ∀ s, s.length ≤ (utf8 s).length
  utf8dec : List Nat → Option (List Char)
  utf8dec_len : ∀ b s, utf8dec b = some s → s.length ≤ b.length

/-- `MobileError` from `src/errors.rs`. -/
inductive MobileError where
  | NoWalletLoaded
  | InvalidPassword
  | WalletCreationFailed (msg : String)
  | InvalidMnemonic
  | InsufficientBalance
  | InvalidTransaction
  | TransactionFailed (msg : String)
  | SyncFailed (msg : String)
  | BiometricAuthFailed
  | KeystoreError (msg : String)
  | SerializationError (msg : String)
  | CryptoError (msg : String)
  | NetworkError (msg : String)
  deriving DecidableEq

instance {ε α : Type} [DecidableEq ε] [DecidableEq α] : DecidableEq (Except ε α) := fun a b =>
  match a, b with
  | .ok x, .ok y =>
    if h : x = y then .isTrue (by rw [h]) else .isFalse (by intro hc; cases hc; exact h rfl)
  | .ok _, .error _ => .isFalse (by intro hc; cases hc)
  | .error _, .ok _ => .isFalse (by intro hc; cases hc)
  | .error x, .error y =>
    if h : x = y then .isTrue (by rw [h]) else .isFalse (by intro hc; cases hc; exact h rfl)

/-- Rust `str::len`: the UTF-8 byte length of a string. -/
def utf8Len (s : List Char) : Nat := (s.map Char.utf8Size).sum

/-- Whitespace predicate used by `str::split_whitespace` (restricted to the
ASCII whitespace characters; none of the claims involve exotic Unicode
whitespace). -/
def isWS (c : Char) : Bool := c = ' ' || c = '\t' || c = '\n' || c = '\r'

/-- Worker for `splitWS`: `acc` holds the current (reversed) token. -/
def splitWSAux : List Char → List Char → List (List Char)
  | [], [] => []
  | [], acc => [acc.reverse]
  | c :: rest, acc =>
    if isWS c then
      if acc = [] then splitWSAux rest []
      else acc.reverse :: splitWSAux rest []
    else splitWSAux rest (c :: acc)

/-- Rust `str::split_whitespace().collect()`: maximal runs of
non-whitespace characters, empty runs skipped. -/
def splitWS (s : List Char) : List (List Char) := splitWSAux s []

/-- Lowercase hex digit, as produced by `hex::encode`. -/
def hexDigit (n : Nat) : Char :=
  if n < 10 then Char.ofNat (48 + n) else Char.ofNat (87 + n)

/-- `hex::encode` on a byte list. -/
def hexEncode (bs : List Nat) : List Char :=
  bs.foldr (fun b acc => hexDigit (b / 16) :: hexDigit (b % 16) :: acc) []

/-- `u64::to_le_bytes`. -/
def leBytes8 (n : Nat) : List Nat := (List.range 8).map (fun i => n / 256 ^ i % 256)

/-- `u32::to_le_bytes`. -/
def leBytes4 (n : Nat) : List Nat := (List.range 4).map (fun i => n / 256 ^ i % 256)

/-- ASCII bytes of a label string (all labels in the source are ASCII, where
UTF-8 bytes coincide with code points). -/
def asciiBytes (s : List Char) : List Nat := s.map Char.toNat

/-- `Keystore` from `src/keystore.rs`: note that the source struct has a
third field `master_key` besides the encrypted mnemonic and the salt. -/
structure Keystore where
  encrypted_mnemonic : List Nat
  salt : List Nat
  master_key : List Nat
  deriving DecidableEq

/-- `Keystore::derive_key`: Argon2 password hash of the password bytes under
the salt.  The base64 encoding of the 16-byte salt into a `SaltString` is
injective and is absorbed into the abstract `argon2` parameter; on the
always-valid salts produced by the constructors the function never fails, so
it is embedded as total (the spec states the KDF never fails on valid
input). -/
def derive_key (P : CryptoPrims) (password : List Char) (salt : List Nat) : List Nat :=
  P.argon2 (P.utf8 password) salt

/-- `Keystore::encrypt`: despite its name, the source computes a blake3 hash
of the data followed by the key (two `update` calls hash the concatenation)
and returns the 32-byte digest. -/
def Keystore.encrypt (P : CryptoPrims) (data : List Char) (key : List Nat) : List Nat :=
  P.blake3 (P.utf8 data ++ key)

/-- The 16-entry wordlist hardcoded in `Keystore::generate_mnemonic`. -/
def words : List (List Char) :=
  ["abandon".data, "ability".data, "able".data, "about".data, "above".data,
   "absent".data, "absorb".data, "abstract".data, "academy".data, "accept".data,
   "access".data, "accident".data, "account".data, "accuse".data, "achieve".data,
   "acid".data]

/-- `Vec::join(" ")`. -/
def joinSpace : List (List Char) → List Char
  | [] => []
  | [w] => w
  | w :: x :: xs => w ++ ' ' :: joinSpace (x :: xs)

/-- `Keystore::generate_mnemonic`: twelve samples from `words`.  The twelve
random indices drawn by `rng.gen_range(0..16)` are the explicit argument
`idxs`; `% 16` records the range contract of `gen_range`. -/
def generate_mnemonic (idxs : List Nat) : List Char :=
  joinSpace ((List.range 12).map (fun k => words.getD (idxs.getD k 0 % 16) []))

/-- `Keystore::new`.  The salt (16 random bytes) and the mnemonic word
samples are the explicit random inputs.  The source returns `Result` but can
only fail inside `derive_key`, which is embedded as total (see
`derive_key`), so the constructor is total here. -/
def Keystore.new (P : CryptoPrims) (password : List Char) (salt : List Nat)
    (idxs : List Nat) : Keystore :=
  let master_key := derive_key P password salt
  let mnemonic := generate_mnemonic idxs
  { encrypted_mnemonic := Keystore.encrypt P mnemonic master_key
    salt := salt
    master_key := master_key }

/-- `Keystore::from_mnemonic`. -/
def Keystore.from_mnemonic (P : CryptoPrims) (mnemonic password : List Char)
    (salt : List Nat) : Except MobileError Keystore :=
  if (splitWS mnemonic).length ≠ 12 then .error MobileError.InvalidMnemonic
  else
    let master_key := derive_key P password salt
    .ok { encrypted_mnemonic := Keystore.encrypt P mnemonic master_key
          salt := salt
          master_key := master_key }

/-- Context string of the extract phase in `Keystore::decrypt`. -/
def extractLabel : List Nat := asciiBytes "silver_keystore_extract".data

/-- Context string of the expand phase in `Keystore::decrypt`. -/
def expandLabel : List Nat := asciiBytes "silver_keystore_expand".data

/-- The working key `Keystore::decrypt` derives from the input key and the
nonce (extract phase, then expand phase, then the first 32 bytes). -/
def decryptDerivedKey (P : CryptoPrims) (encrypted key : List Nat) : List Nat :=
  (P.sha256 (P.sha256 (key ++ extractLabel) ++ expandLabel ++ encrypted.take 12)).take 32

/-- `Keystore::decrypt`: length check, nonce/ciphertext split, two-stage key
derivation, ChaCha20-Poly1305 open, UTF-8 decode. -/
def Keystore.decrypt (P : CryptoPrims) (encrypted key : List Nat) :
    Except MobileError (List Char) :=
  if encrypted.length < 28 then
    .error (MobileError.CryptoError "Encrypted data too short")
  else
    match P.chachaOpen (decryptDerivedKey P encrypted key) (encrypted.take 12)
        (encrypted.drop 12) with
    | some plaintext =>
      match P.utf8dec plaintext with
      | some s => .ok s
      | none => .error (MobileError.CryptoError "Invalid UTF-8 in decrypted data")
    | none => .error (MobileError.CryptoError "Decryption failed - invalid key or corrupted data")

/-- `Keystore::export_mnemonic`. -/
def Keystore.export_mnemonic (P : CryptoPrims) (ks : Keystore) (password : List Char) :
    Except MobileError (List Char) :=
  Keystore.decrypt P ks.encrypted_mnemonic (derive_key P password ks.salt)

/-- `SecurityManager::validate_password` from `src/security.rs` (the `self`
receiver is unused by the source).  Character classes are modelled by the
ASCII classifiers; every password in the claims is ASCII, where Rust's
Unicode `is_uppercase`/`is_lowercase`/`is_numeric` agree with them. -/
def SecurityManager.validate_password (password : List Char) : Except MobileError Unit :=
  if utf8Len password < 8 then .error MobileError.InvalidPassword
  else
    let has_upper := password.any Char.isUpper
    let has_lower := password.any Char.isLower
    let has_digit := password.any Char.isDigit
    if !has_upper || !has_lower || !has_digit then .error MobileError.InvalidPassword
    else .ok ()

/-- `Account` from `src/account.rs`.  `index` is `u32` in the source; the
embedding keeps it a `Nat` and applies `% 2 ^ 32` exactly where the source
performs its lossy `as u32` cast (`MobileWallet::add_account`). -/
structure Account where
  index : Nat
  name : List Char
  address : List Char
  public_key : List Nat
  balance : Nat
  deriving DecidableEq

/-- `Account::new`: address and public key are blake3 digests of the index
bytes (plus a label), the name is `format!("Account {}", index)`. -/
def Account.new (P : CryptoPrims) (index : Nat) : Account :=
  let address_bytes := P.blake3 (leBytes4 index)
  { index := index
    name := "Account ".data ++ Nat.toDigits 10 index
    address := "silver_".data ++ hexEncode (address_bytes.take 8)
    public_key := P.blake3 (leBytes4 index ++ asciiBytes "public_key".data)
    balance := 0 }

/-- `TransactionStatus` from `src/transaction.rs`. -/
inductive TransactionStatus where
  | Pending
  | Confirmed
  | Failed
  deriving DecidableEq

/-- `MobileTransaction` from `src/transaction.rs`.  The source fields `from`
and `to` are Lean keywords and are embedded as `fromAddr` / `toAddr`. -/
structure MobileTransaction where
  id : List Char
  fromAddr : List Char
  toAddr : List Char
  amount : Nat
  fee : Nat
  status : TransactionStatus
  timestamp : Nat
  deriving DecidableEq

/-- `MobileTransaction::new`: the wall-clock seconds read from
`SystemTime::now` are the explicit argument `now`. -/
def MobileTransaction.new (P : CryptoPrims) (fromAddr toAddr : List Char)
    (amount fee : Nat) (now : Nat) : Except MobileError MobileTransaction :=
  if fromAddr = [] || toAddr = [] then .error MobileError.InvalidTransaction
  else if amount = 0 then .error MobileError.InvalidTransaction
  else
    .ok { id := "tx_".data ++
            hexEncode (P.blake3 (P.utf8 fromAddr ++ P.utf8 toAddr ++ leBytes8 amount))
          fromAddr := fromAddr
          toAddr := toAddr
          amount := amount
          fee := fee
          status := TransactionStatus.Pending
          timestamp := now }

/-- `MobileTransaction::total`: unchecked `u64` addition (wraps in release
builds). -/
def MobileTransaction.total (t : MobileTransaction) : Nat := (t.amount + t.fee) % 2 ^ 64

/-- `MobileWallet` from `src/wallet.rs`. -/
structure MobileWallet where
  id : List Char
  accounts : List Account
  active_account : Nat
  keystore : Keystore
  balance : Nat
  transaction_history : List MobileTransaction
  deriving DecidableEq

/-- `MobileWallet::new`.  Random inputs (salt, mnemonic samples, the UUID
string `wid`) are explicit arguments. -/
def MobileWallet.new (P : CryptoPrims) (password : List Char) (salt : List Nat)
    (idxs : List Nat) (wid : List Char) : Except MobileError MobileWallet :=
  if utf8Len password < 8 then .error MobileError.InvalidPassword
  else
    .ok { id := wid
          accounts := [Account.new P 0]
          active_account := 0
          keystore := Keystore.new P password salt idxs
          balance := 0
          transaction_history := [] }

/-- `MobileWallet::from_mnemonic`. -/
def MobileWallet.from_mnemonic (P : CryptoPrims) (mnemonic password : List Char)
    (salt : List Nat) (wid : List Char) : Except MobileError MobileWallet :=
  if utf8Len password < 8 then .error MobileError.InvalidPassword
  else
    match Keystore.from_mnemonic P mnemonic password salt with
    | .error e => .error e
    | .ok ks =>
      .ok { id := wid
            accounts := [Account.new P 0]
            active_account := 0
            keystore := ks
            balance := 0
            transaction_history := [] }

/-- Placeholder account used where the source would panic on an
out-of-bounds index; never reached on wallets satisfying `walletInv`. -/
def defaultAccount : Account :=
  { index := 0, name := [], address := [], public_key := [], balance := 0 }

/-- The method `MobileWallet::active_account()`: indexes
`accounts[active_account]` (the source panics when the index is out of
bounds, which `walletInv` rules out; the embedding totalises with
`defaultAccount`). -/
def MobileWallet.getActiveAccount (w : MobileWallet) : Account :=
  w.accounts.getD w.active_account defaultAccount

/-- `MobileWallet::set_balance`. -/
def MobileWallet.set_balance (w : MobileWallet) (balance : Nat) : MobileWallet :=
  { w with balance := balance }

/-- `MobileWallet::add_account`: `Account::new(self.accounts.len() as u32)`,
then push.  The `as u32` cast is the `% 2 ^ 32`.  The source returns
`Result` but `Account::new` never fails. -/
def MobileWallet.add_account (P : CryptoPrims) (w : MobileWallet) : MobileWallet :=
  { w with accounts := w.accounts ++ [Account.new P (w.accounts.length % 2 ^ 32)] }

/-- `MobileWallet::add_transaction`. -/
def MobileWallet.add_transaction (w : MobileWallet) (t : MobileTransaction) : MobileWallet :=
  { w with transaction_history := w.transaction_history ++ [t] }

/-- `MobileWallet::create_transaction`: the balance test computes
`amount + fee` with unchecked `u64` addition, embedded with `% 2 ^ 64`
(release-build wrapping; a debug build would panic on overflow instead). -/
def MobileWallet.create_transaction (P : CryptoPrims) (w : MobileWallet)
    (recipient : List Char) (amount fee : Nat) (now : Nat) :
    Except MobileError MobileTransaction :=
  if (amount + fee) % 2 ^ 64 > w.balance then .error MobileError.InsufficientBalance
  else
    MobileTransaction.new P (MobileWallet.getActiveAccount w).address recipient amount fee now

/-- `MobileWallet::export_mnemonic`. -/
def MobileWallet.export_mnemonic (P : CryptoPrims) (w : MobileWallet)
    (password : List Char) : Except MobileError (List Char) :=
  Keystore.export_mnemonic P w.keystore password

/-- `MobileWalletManager::create_wallet` from `src/lib.rs`: validates the
password with the security manager, then builds the wallet (the storing of
the wallet in the locked slot is outside the claims). -/
def MobileWalletManager.create_wallet (P : CryptoPrims) (password : List Char)
    (salt : List Nat) (idxs : List Nat) (wid : List Char) :
    Except MobileError MobileWallet :=
  match SecurityManager.validate_password password with
  | .error e => .error e
  | .ok _ => MobileWallet.new P password salt idxs wid

/-- `MobileWalletManager::import_wallet` from `src/lib.rs`. -/
def MobileWalletManager.import_wallet (P : CryptoPrims) (mnemonic password : List Char)
    (salt : List Nat) (wid : List Char) : Except MobileError MobileWallet :=
  match SecurityManager.validate_password password with
  | .error e => .error e
  | .ok _ => MobileWallet.from_mnemonic P mnemonic password salt wid

/-- The wallet-mutating (or, for `create_transaction`, wallet-reading)
operations a caller can run after construction, for the evolution claims. -/
inductive WalletOp where
  | addAccount
  | setBalance (b : Nat)
  | addTransaction (t : MobileTransaction)
  | createTransaction (recipient : List Char) (amount fee now : Nat)

/-- One wallet operation as a state step.  `create_transaction` takes
`&self` in the source, so its step leaves the state unchanged. -/
def stepOp (P : CryptoPrims) (w : MobileWallet) : WalletOp → MobileWallet
  | .addAccount => MobileWallet.add_account P w
  | .setBalance b => MobileWallet.set_balance w b
  | .addTransaction t => MobileWallet.add_transaction w t
  | .createTransaction _ _ _ _ => w

/-- Structural wallet invariant: accounts non-empty, the account created at
construction still at position 0, `active_account` in bounds, and the
account stored at position `i` carrying index `i % 2 ^ 32` (the image of the
`as u32` cast; equal to `i` for every `i < 2 ^ 32`). -/
def walletInv (P : CryptoPrims) (w : MobileWallet) : Prop :=
  w.accounts ≠ [] ∧
  w.accounts.getD 0 defaultAccount = Account.new P 0 ∧
  w.active_account < w.accounts.length ∧
  ∀ i, i < w.accounts.length → (w.accounts.getD i defaultAccount).index = i % 2 ^ 32

/-- Concrete, fully executable instance of the primitive interface, used to
evaluate the embedded operations at concrete inputs. -/
def cPrims : CryptoPrims where
  blake3 := fun _ => List.replicate 32 0
  blake3_len := fun _ => List.length_replicate 32 0
  sha256 := fun x => x
  argon2 := fun _ _ => List.replicate 32 1
  chachaOpen := fun _ _ c =>
    if 16 ≤ c.length then some (List.replicate (c.length - 16) 0) else none
  chachaOpen_len := by
    intro k n c p h
    dsimp only at h
    by_cases hc : 16 ≤ c.length
    · rw [if_pos hc] at h
      cases h
      rw [List.length_replicate]
      omega
    · rw [if_neg hc] at h
      cases h
  utf8 := fun s => s.map Char.toNat
  utf8_len := by
    intro s
    rw [List.length_map]
  utf8dec := fun b => some (b.map Char.ofNat)
  utf8dec_len := by
    intro b s h
    cases h
    rw [List.length_map]

/-- Concrete password satisfying the policy (spec test vector). -/
def pw0 : List Char := "ValidPass123".data

/-- Concrete password rejected by length (spec test vector). -/
def pwShort : List Char := "short".data

/-- Concrete password rejected for missing uppercase (spec test vector). -/
def pwWeak : List Char := "alllowercase123".data

/-- Concrete 16-byte salt. -/
def salt0 : List Nat := List.replicate 16 0

/-- Concrete mnemonic word samples. -/
def idxs0 : List Nat := List.range 12

/-- Concrete wallet id. -/
def wid0 : List Char := "w".data

/-- Concrete 12-word phrase. -/
def m0 : List Char := "alpha beta gamma delta epsilon zeta eta theta iota kappa lambda mu".data

/-- Twelve tokens that are not in the wordlist. -/
def mZ : List Char := joinSpace (List.replicate 12 "zzz".data)

/-- The keystore `Keystore.from_mnemonic cPrims m0 pw0 salt0` produces. -/
def ks0 : Keystore :=
  { encrypted_mnemonic := List.replicate 32 0
    salt := salt0
    master_key := List.replicate 32 1 }


/-- `splitWSAux` produces at most one token per remaining character, plus
one for a non-empty accumulator. -/
theorem splitWSAux_length_le (s : List Char) :
    ∀ acc, (splitWSAux s acc).length ≤ s.length + (if acc = [] then 0 else 1) := by
  induction s with
  | nil =>
    intro acc
    cases acc with
    | nil => simp [splitWSAux]
    | cons a as => simp [splitWSAux]
  | cons c rest ih =>
    intro acc
    by_cases hw : isWS c = true
    · by_cases ha : acc = []
      · have hstep : splitWSAux (c :: rest) acc = splitWSAux rest [] := by
          simp [splitWSAux, hw, ha]
        rw [hstep]
        have := ih []
        simp [ha] at this ⊢
        omega
      · have hstep : splitWSAux (c :: rest) acc = acc.reverse :: splitWSAux rest [] := by
          simp [splitWSAux, hw, ha]
        rw [hstep]
        have := ih []
        simp [ha] at this ⊢
        omega
    · have hstep : splitWSAux (c :: rest) acc = splitWSAux rest (c :: acc) := by
        simp [splitWSAux, hw]
      rw [hstep]
      have := ih (c :: acc)
      simp at this ⊢
      split <;> omega

/-- The whitespace split of a string has at most as many tokens as the
string has characters. -/
theorem splitWS_length_le (s : List Char) : (splitWS s).length ≤ s.length := by
  have := splitWSAux_length_le s []
  simpa [splitWS] using this

/-- Joining non-empty words with spaces yields at least one character per
word. -/
theorem joinSpace_length_ge :
    ∀ ws : List (List Char), (∀ w ∈ ws, w ≠ []) → ws.length ≤ (joinSpace ws).length := by
  intro ws
  induction ws with
  | nil => intro _; simp [joinSpace]
  | cons w rest ih =>
    intro h
    cases rest with
    | nil =>
      have hw : w ≠ [] := h w (by simp)
      have : 1 ≤ w.length := List.length_pos.mpr hw
      simpa [joinSpace] using this
    | cons x xs =>
      have h2 : (x :: xs).length ≤ (joinSpace (x :: xs)).length := by
        refine ih ?_
        intro a ha
        exact h a (by simp [ha])
      have hw : w ≠ [] := h w (by simp)
      have hw1 : 1 ≤ w.length := List.length_pos.mpr hw
      have : joinSpace (w :: x :: xs) = w ++ ' ' :: joinSpace (x :: xs) := rfl
      rw [this, List.length_append]
      simp at h2 ⊢
      omega

/-- Every entry of the hardcoded wordlist is non-empty. -/
theorem words_getD_ne_nil : ∀ j, j < 16 → words.getD j [] ≠ [] := by decide

/-- A generated mnemonic has at least twelve characters (twelve non-empty
words joined with spaces). -/
theorem generate_mnemonic_length (idxs : List Nat) :
    12 ≤ (generate_mnemonic idxs).length := by
  have h := joinSpace_length_ge
    ((List.range 12).map (fun k => words.getD (idxs.getD k 0 % 16) [])) ?_
  · simpa [generate_mnemonic] using h
  · intro w hw
    simp only [List.mem_map, List.mem_range] at hw
    obtain ⟨k, _, hk⟩ := hw
    rw [← hk]
    exact words_getD_ne_nil _ (Nat.mod_lt _ (by omega))

/-- A successful `Keystore::decrypt` returns a string at least 28 bytes
shorter than the encrypted blob (12 nonce bytes plus the 16-byte tag are
consumed). -/
theorem decrypt_ok_length (P : CryptoPrims) (enc key : List Nat) (s : List Char)
    (h : Keystore.decrypt P enc key = .ok s) : s.length + 28 ≤ enc.length := by
  unfold Keystore.decrypt at h
  split at h
  · cases h
  · rename_i h28
    split at h
    · rename_i pt hop
      split at h
      · rename_i s2 hdec
        cases h
        have hlen := P.chachaOpen_len _ _ _ _ hop
        have hdl := P.utf8dec_len _ _ hdec
        have hdrop : (enc.drop 12).length = enc.length - 12 := List.length_drop 12 enc
        omega
      · cases h
    · cases h

/-- Claim C1: the round-trip fails in the source.  `Keystore::encrypt` is a
one-way blake3 hash (a 32-byte digest, not a `nonce || ciphertext || tag`
blob), while `Keystore::decrypt` AEAD-opens that 32-byte blob, which can
yield at most 4 plaintext bytes; a 12-token phrase (and every generated
mnemonic) has at least 12 characters, so `export_mnemonic` can never return
the original phrase, for any implementation of the primitives and any
password. -/
theorem c1_roundtrip_impossible (P : CryptoPrims) (m pw : List Char) (salt : List Nat)
    (ks : Keystore) (h : Keystore.from_mnemonic P m pw salt = .ok ks) :
    Keystore.export_mnemonic P ks pw ≠ .ok m ∧
    ∀ pw2 salt2 idxs,
      Keystore.export_mnemonic P (Keystore.new P pw2 salt2 idxs) pw2 ≠
        .ok (generate_mnemonic idxs) := by
  constructor
  · intro hexp
    unfold Keystore.from_mnemonic at h
    split at h
    · cases h
    · rename_i hcount
      cases h
      unfold Keystore.export_mnemonic at hexp
      have hlen := decrypt_ok_length P _ _ _ hexp
      have he : (Keystore.encrypt P m (derive_key P pw salt)).length = 32 := P.blake3_len _
      have hm : 12 ≤ m.length := by
        have h12 : (splitWS m).length = 12 := by omega
        have hle := splitWS_length_le m
        omega
      simp only at hlen
      omega
  · intro pw2 salt2 idxs hexp
    simp only [Keystore.export_mnemonic, Keystore.new] at hexp
    have hlen := decrypt_ok_length P _ _ _ hexp
    have he : (Keystore.encrypt P (generate_mnemonic idxs) (derive_key P pw2 salt2)).length = 32 :=
      P.blake3_len _
    have hg := generate_mnemonic_length idxs
    omega

/-- Witness for C1 at concrete inputs: the import succeeds, yet neither
export path can return the imported or generated phrase. -/
theorem c1_witness :
    Keystore.from_mnemonic cPrims m0 pw0 salt0 = Except.ok ks0 ∧
    Keystore.export_mnemonic cPrims ks0 pw0 ≠ Except.ok m0 ∧
    Keystore.export_mnemonic cPrims (Keystore.new cPrims pw0 salt0 idxs0) pw0 ≠
      Except.ok (generate_mnemonic idxs0) :=
  ⟨by decide,
   (c1_roundtrip_impossible cPrims m0 pw0 salt0 ks0 (by decide)).1,
   (c1_roundtrip_impossible cPrims m0 pw0 salt0 ks0 (by decide)).2 pw0 salt0 idxs0⟩

/-- Claim C2: the claim fails in the source.  Both keystore constructors
store the password-derived key in the retained `master_key` struct field, so
the keystore state is not just the encrypted secret and the salt. -/
theorem c2_master_key_retained (P : CryptoPrims) (pw m : List Char) (salt idxs : List Nat) :
    (Keystore.new P pw salt idxs).master_key = derive_key P pw salt ∧
    ∀ ks, Keystore.from_mnemonic P m pw salt = .ok ks →
      ks.master_key = derive_key P pw salt := by
  constructor
  · rfl
  · intro ks h
    unfold Keystore.from_mnemonic at h
    split at h
    · cases h
    · cases h
      rfl

/-- Witness for C2 at concrete inputs: both constructors leave the derived
key in the struct. -/
theorem c2_witness :
    (Keystore.new cPrims pw0 salt0 idxs0).master_key = derive_key cPrims pw0 salt0 ∧
    ks0.master_key = derive_key cPrims pw0 salt0 :=
  ⟨(c2_master_key_retained cPrims pw0 m0 salt0 idxs0).1,
   (c2_master_key_retained cPrims pw0 m0 salt0 idxs0).2 ks0 (by decide)⟩

/-- Claim C3 counterexample: `"alllowercase123"` violates the password
policy, yet `MobileWallet::new` succeeds with it (only the length check is
performed at wallet level; no complexity check and no policy check exist in
`Keystore::new`). -/
theorem c3_counterexample :
    SecurityManager.validate_password pwWeak = .error MobileError.InvalidPassword ∧
    (MobileWallet.new cPrims pwWeak salt0 idxs0 wid0).isOk = true ∧
    (MobileWallet.from_mnemonic cPrims m0 pwWeak salt0 wid0).isOk = true := by
  refine ⟨by decide, by decide, by decide⟩

/-- Claim C3 (amended): wallet-level creation and import reject only
passwords shorter than 8 bytes (before any key derivation: the result does
not depend on the crypto primitives); any password of length at least 8
is accepted by `MobileWallet::new` regardless of complexity; the full
policy is enforced with `InvalidPassword` only by the wallet manager, which
validates before calling the constructors. -/
theorem c3_amended (P : CryptoPrims) (pw m : List Char) (salt idxs : List Nat)
    (wid : List Char) :
    (utf8Len pw < 8 →
      MobileWallet.new P pw salt idxs wid = .error MobileError.InvalidPassword ∧
      MobileWallet.from_mnemonic P m pw salt wid = .error MobileError.InvalidPassword) ∧
    (8 ≤ utf8Len pw → (MobileWallet.new P pw salt idxs wid).isOk = true) ∧
    (SecurityManager.validate_password pw = .error MobileError.InvalidPassword →
      MobileWalletManager.create_wallet P pw salt idxs wid =
        .error MobileError.InvalidPassword ∧
      MobileWalletManager.import_wallet P m pw salt wid =
        .error MobileError.InvalidPassword) := by
  refine ⟨?_, ?_, ?_⟩
  · intro h
    constructor
    · unfold MobileWallet.new
      rw [if_pos h]
    · unfold MobileWallet.from_mnemonic
      rw [if_pos h]
  · intro h
    unfold MobileWallet.new
    rw [if_neg (by omega)]
    rfl
  · intro h
    constructor
    · unfold MobileWalletManager.create_wallet
      rw [h]
    · unfold MobileWalletManager.import_wallet
      rw [h]

/-- Witness for C3 (amended) at concrete inputs. -/
theorem c3_witness :
    MobileWallet.new cPrims pwShort salt0 idxs0 wid0 = .error MobileError.InvalidPassword ∧
    (MobileWallet.new cPrims pwWeak salt0 idxs0 wid0).isOk = true ∧
    MobileWalletManager.create_wallet cPrims pwWeak salt0 idxs0 wid0 =
      .error MobileError.InvalidPassword ∧
    MobileWalletManager.import_wallet cPrims m0 pwWeak salt0 wid0 =
      .error MobileError.InvalidPassword :=
  ⟨((c3_amended cPrims pwShort m0 salt0 idxs0 wid0).1 (by decide)).1,
   (c3_amended cPrims pwWeak m0 salt0 idxs0 wid0).2.1 (by decide),
   ((c3_amended cPrims pwWeak m0 salt0 idxs0 wid0).2.2 (by decide)).1,
   ((c3_amended cPrims pwWeak m0 salt0 idxs0 wid0).2.2 (by decide)).2⟩

/-- A wallet reached by `MobileWallet::new` followed by `set_balance(10)`. -/
def w4 : MobileWallet :=
  { id := wid0
    accounts := [Account.new cPrims 0]
    active_account := 0
    keystore := Keystore.new cPrims pw0 salt0 idxs0
    balance := 10
    transaction_history := [] }

/-- Claim C4: the claim fails in the source.  `create_transaction` computes
`amount + fee` with unchecked `u64` addition; with balance 10,
`amount = 2^64 - 1` and `fee = 2` the sum wraps to 1, the balance check
passes, and the call succeeds (a debug build would panic instead), although
the exact mathematical sum exceeds the balance. -/
theorem c4_overflow_wraps :
    (MobileWallet.new cPrims pw0 salt0 idxs0 wid0).map
      (fun w => MobileWallet.set_balance w 10) = .ok w4 ∧
    2 ^ 64 - 1 + 2 > w4.balance ∧
    (MobileWallet.create_transaction cPrims w4 "r".data (2 ^ 64 - 1) 2 0).isOk = true := by
  refine ⟨by decide, by decide, by decide⟩

/-- `Except.isOk` on a success. -/
theorem isOk_ok {ε α : Type} (x : α) : (Except.ok x : Except ε α).isOk = true := rfl

/-- `Except.isOk` on an error. -/
theorem isOk_error {ε α : Type} (e : ε) : (Except.error e : Except ε α).isOk = false := rfl

/-- `Keystore.decrypt` on a blob of sufficient length, unfolded past the
length guard. -/
theorem decrypt_eq_of_long (P : CryptoPrims) (enc key : List Nat) (h28 : 28 ≤ enc.length) :
    Keystore.decrypt P enc key =
      match P.chachaOpen (decryptDerivedKey P enc key) (enc.take 12) (enc.drop 12) with
      | some plaintext =>
        match P.utf8dec plaintext with
        | some s => .ok s
        | none => .error (MobileError.CryptoError "Invalid UTF-8 in decrypted data")
      | none => .error (MobileError.CryptoError "Decryption failed - invalid key or corrupted data") := by
  unfold Keystore.decrypt
  rw [if_neg (by omega)]

/-- Claim C5: `Keystore::decrypt` (hence `export_mnemonic`) fails exactly on
short blobs, AEAD opening failure, or non-UTF-8 plaintext; every failure is
the `CryptoError` variant; a short blob is rejected by the length check
before any cryptographic primitive is consulted (the result does not depend
on the primitives at all); and AEAD failure — wrong key and corrupted data
alike — maps to one fixed error value. -/
theorem c5_decrypt_errors (P : CryptoPrims) (enc key : List Nat) :
    (∀ e, Keystore.decrypt P enc key = .error e → ∃ msg, e = MobileError.CryptoError msg) ∧
    (enc.length < 28 →
      Keystore.decrypt P enc key = .error (MobileError.CryptoError "Encrypted data too short") ∧
      ∀ Q : CryptoPrims, Keystore.decrypt Q enc key = Keystore.decrypt P enc key) ∧
    (28 ≤ enc.length →
      ((Keystore.decrypt P enc key).isOk = false ↔
        P.chachaOpen (decryptDerivedKey P enc key) (enc.take 12) (enc.drop 12) = none ∨
        ∃ pt, P.chachaOpen (decryptDerivedKey P enc key) (enc.take 12) (enc.drop 12) = some pt ∧
          P.utf8dec pt = none)) ∧
    (28 ≤ enc.length →
      P.chachaOpen (decryptDerivedKey P enc key) (enc.take 12) (enc.drop 12) = none →
      Keystore.decrypt P enc key =
        .error (MobileError.CryptoError "Decryption failed - invalid key or corrupted data")) := by
  refine ⟨?_, ?_, ?_, ?_⟩
  · intro e h
    unfold Keystore.decrypt at h
    split at h
    · cases h
      exact ⟨_, rfl⟩
    · split at h
      · split at h
        · cases h
        · cases h
          exact ⟨_, rfl⟩
      · cases h
        exact ⟨_, rfl⟩
  · intro h28
    constructor
    · unfold Keystore.decrypt
      rw [if_pos h28]
    · intro Q
      unfold Keystore.decrypt
      rw [if_pos h28, if_pos h28]
  · intro h28
    rw [decrypt_eq_of_long P enc key h28]
    rcases hop : P.chachaOpen (decryptDerivedKey P enc key) (enc.take 12) (enc.drop 12) with
      _ | pt
    · simp only [hop, isOk_error]
      simp
    · rcases hdec : P.utf8dec pt with _ | s
      · simp only [hop, hdec, isOk_error]
        constructor
        · intro _
          exact Or.inr ⟨pt, rfl, hdec⟩
        · intro _
          trivial
      · simp only [hop, hdec, isOk_ok]
        constructor
        · intro hfalse
          cases hfalse
        · intro hor
          rcases hor with h | ⟨pt2, hpt2, hdec2⟩
          · cases h
          · rw [Option.some_inj] at hpt2
            rw [← hpt2, hdec] at hdec2
            cases hdec2
  · intro h28 hop
    rw [decrypt_eq_of_long P enc key h28, hop]

/-- A 10-byte blob (shorter than the 28-byte minimum). -/
def enc10 : List Nat := List.replicate 10 0

/-- A 32-byte blob (long enough for the nonce and tag). -/
def enc32 : List Nat := List.replicate 32 7

/-- Witness for C5 at concrete inputs: a short blob yields the fixed
length error, and the failure characterization holds on a long blob. -/
theorem c5_witness :
    Keystore.decrypt cPrims enc10 [] =
      .error (MobileError.CryptoError "Encrypted data too short") ∧
    ((Keystore.decrypt cPrims enc32 []).isOk = false ↔
      cPrims.chachaOpen (decryptDerivedKey cPrims enc32 []) (enc32.take 12) (enc32.drop 12) =
        none ∨
      ∃ pt,
        cPrims.chachaOpen (decryptDerivedKey cPrims enc32 []) (enc32.take 12) (enc32.drop 12) =
          some pt ∧
        cPrims.utf8dec pt = none) :=
  ⟨((c5_decrypt_errors cPrims enc10 []).2.1 (by decide)).1,
   (c5_decrypt_errors cPrims enc32 []).2.2.1 (by decide)⟩

/-- Claim C6: `create_transaction` takes `&self` and is embedded as a pure
reader, so its operation step leaves the wallet state — balance, accounts,
active account, keystore and history — unchanged, and on success the
returned transaction has status `Pending`. -/
theorem c6_no_mutation_pending (P : CryptoPrims) (w : MobileWallet) (r : List Char)
    (a fe now : Nat) :
    stepOp P w (WalletOp.createTransaction r a fe now) = w ∧
    ∀ tx, MobileWallet.create_transaction P w r a fe now = .ok tx →
      tx.status = TransactionStatus.Pending := by
  refine ⟨rfl, ?_⟩
  intro tx h
  unfold MobileWallet.create_transaction at h
  split at h
  · cases h
  · unfold MobileTransaction.new at h
    split at h
    · cases h
    · split at h
      · cases h
      · cases h
        rfl

/-- The transaction `create_transaction cPrims w4 "r" 1 0 0` returns. -/
def tx6 : MobileTransaction :=
  { id := "tx_".data ++ hexEncode (List.replicate 32 0)
    fromAddr := (Account.new cPrims 0).address
    toAddr := "r".data
    amount := 1
    fee := 0
    status := TransactionStatus.Pending
    timestamp := 0 }

/-- Witness for C6 at concrete inputs. -/
theorem c6_witness :
    MobileWallet.create_transaction cPrims w4 "r".data 1 0 0 = .ok tx6 ∧
    stepOp cPrims w4 (WalletOp.createTransaction "r".data 1 0 0) = w4 ∧
    tx6.status = TransactionStatus.Pending :=
  ⟨by decide,
   (c6_no_mutation_pending cPrims w4 "r".data 1 0 0).1,
   (c6_no_mutation_pending cPrims w4 "r".data 1 0 0).2 tx6 (by decide)⟩

/-- Claim C7: import fails with `InvalidMnemonic` exactly when the phrase
does not split into 12 whitespace-separated tokens; 12 tokens always
succeed at keystore level (the wordlist is never consulted), and the same
characterization holds through `MobileWallet::from_mnemonic` for any
password of accepted length. -/
theorem c7_phrase_shape (P : CryptoPrims) (m pw : List Char) (salt : List Nat)
    (wid : List Char) :
    (Keystore.from_mnemonic P m pw salt = .error MobileError.InvalidMnemonic ↔
      (splitWS m).length ≠ 12) ∧
    ((splitWS m).length = 12 → (Keystore.from_mnemonic P m pw salt).isOk = true) ∧
    (8 ≤ utf8Len pw →
      (MobileWallet.from_mnemonic P m pw salt wid = .error MobileError.InvalidMnemonic ↔
        (splitWS m).length ≠ 12)) := by
  refine ⟨?_, ?_, ?_⟩
  · unfold Keystore.from_mnemonic
    split
    · rename_i hne
      constructor
      · intro _
        exact hne
      · intro _
        rfl
    · rename_i hne
      constructor
      · intro h
        cases h
      · intro h
        exact absurd h hne
  · intro h12
    unfold Keystore.from_mnemonic
    rw [if_neg (by omega)]
    rfl
  · intro hpw
    unfold MobileWallet.from_mnemonic
    rw [if_neg (by omega)]
    by_cases h12 : (splitWS m).length = 12
    · have hks : Keystore.from_mnemonic P m pw salt = .ok
          { encrypted_mnemonic := Keystore.encrypt P m (derive_key P pw salt)
            salt := salt
            master_key := derive_key P pw salt } := by
        unfold Keystore.from_mnemonic
        rw [if_neg (by omega)]
      simp only [hks]
      constructor
      · intro h
        cases h
      · intro h
        exact absurd h12 h
    · have hks : Keystore.from_mnemonic P m pw salt = .error MobileError.InvalidMnemonic := by
        unfold Keystore.from_mnemonic
        rw [if_pos (by omega)]
      simp only [hks]
      constructor
      · intro _
        omega
      · intro _
        trivial

/-- Witness for C7 at concrete inputs: twelve tokens outside the wordlist
are accepted, and the spec's three-word example is rejected. -/
theorem c7_witness :
    (Keystore.from_mnemonic cPrims mZ pw0 salt0).isOk = true ∧
    MobileWallet.from_mnemonic cPrims "one two three".data pw0 salt0 wid0 =
      .error MobileError.InvalidMnemonic :=
  ⟨(c7_phrase_shape cPrims mZ pw0 salt0 wid0).2.1 (by decide),
   ((c7_phrase_shape cPrims "one two three".data pw0 salt0 wid0).2.2 (by decide)).mpr
     (by decide)⟩

/-- Claim C8: `validate_password` accepts exactly the strings of byte
length at least 8 containing an uppercase letter, a lowercase letter and a
digit; every rejection is the `InvalidPassword` error; and the spec's three
test vectors behave as stated. -/
theorem c8_validate_password (s : List Char) :
    (SecurityManager.validate_password s = .ok () ↔
      8 ≤ utf8Len s ∧ s.any Char.isUpper = true ∧ s.any Char.isLower = true ∧
        s.any Char.isDigit = true) ∧
    (SecurityManager.validate_password s = .ok () ∨
      SecurityManager.validate_password s = .error MobileError.InvalidPassword) ∧
    SecurityManager.validate_password pwShort = .error MobileError.InvalidPassword ∧
    SecurityManager.validate_password pwWeak = .error MobileError.InvalidPassword ∧
    SecurityManager.validate_password pw0 = .ok () := by
  refine ⟨?_, ?_, by decide, by decide, by decide⟩
  · unfold SecurityManager.validate_password
    by_cases h8 : utf8Len s < 8
    · rw [if_pos h8]
      constructor
      · intro h
        cases h
      · intro h
        omega
    · rw [if_neg h8]
      by_cases hc : (!s.any Char.isUpper || !s.any Char.isLower || !s.any Char.isDigit) = true
      · rw [if_pos hc]
        simp only [Bool.or_eq_true, Bool.not_eq_true'] at hc
        constructor
        · intro h
          cases h
        · intro h
          rcases hc with (hu | hl) | hd
          · rw [h.2.1] at hu
            cases hu
          · rw [h.2.2.1] at hl
            cases hl
          · rw [h.2.2.2] at hd
            cases hd
      · rw [if_neg hc]
        simp only [Bool.or_eq_true, Bool.not_eq_true'] at hc
        push_neg at hc
        constructor
        · intro _
          refine ⟨by omega, ?_, ?_, ?_⟩
          · rcases h : s.any Char.isUpper with _ | _
            · exact absurd (Or.inl (Or.inl h)) (by tauto)
            · rfl
          · rcases h : s.any Char.isLower with _ | _
            · exact absurd (Or.inl (Or.inr h)) (by tauto)
            · rfl
          · rcases h : s.any Char.isDigit with _ | _
            · exact absurd (Or.inr h) (by tauto)
            · rfl
        · intro _
          rfl
  · unfold SecurityManager.validate_password
    by_cases h8 : utf8Len s < 8
    · rw [if_pos h8]
      exact Or.inr rfl
    · rw [if_neg h8]
      by_cases hc : (!s.any Char.isUpper || !s.any Char.isLower || !s.any Char.isDigit) = true
      · rw [if_pos hc]
        exact Or.inr rfl
      · rw [if_neg hc]
        exact Or.inl rfl

/-- Witness for C8: the accepted spec vector, through the theorem. -/
theorem c8_witness : SecurityManager.validate_password pw0 = .ok () :=
  (c8_validate_password pw0).1.mpr (by decide)

/-- Claim C10: the transaction id is a content hash of `(from, to, amount)`
only: two successful builds with equal sender, recipient and amount yield
identical ids whatever their fees and timestamps. -/
theorem c10_id_deterministic (P : CryptoPrims) (sender rcpt : List Char)
    (a fee1 fee2 now1 now2 : Nat) (tx1 tx2 : MobileTransaction)
    (h1 : MobileTransaction.new P sender rcpt a fee1 now1 = .ok tx1)
    (h2 : MobileTransaction.new P sender rcpt a fee2 now2 = .ok tx2) :
    tx1.id = tx2.id := by
  unfold MobileTransaction.new at h1 h2
  split at h1
  · cases h1
  · split at h1
    · cases h1
    · split at h2 <;>
        first
          | (cases h1; cases h2; rfl)
          | cases h2

/-- The transaction built with fee 5 at time 100. -/
def txA : MobileTransaction :=
  { id := "tx_".data ++ hexEncode (List.replicate 32 0)
    fromAddr := "a".data
    toAddr := "b".data
    amount := 3
    fee := 5
    status := TransactionStatus.Pending
    timestamp := 100 }

/-- The same payment built with fee 7 at time 200. -/
def txB : MobileTransaction :=
  { txA with fee := 7, timestamp := 200 }

/-- Witness for C10: two builds differing only in fee and timestamp share
one id. -/
theorem c10_witness :
    MobileTransaction.new cPrims "a".data "b".data 3 5 100 = .ok txA ∧
    MobileTransaction.new cPrims "a".data "b".data 3 7 200 = .ok txB ∧
    txA.id = txB.id :=
  ⟨by decide, by decide,
   c10_id_deterministic cPrims "a".data "b".data 3 5 7 100 200 txA txB (by decide) (by decide)⟩

/-- The index field of a freshly derived account is the derivation index. -/
theorem Account.new_index (P : CryptoPrims) (j : Nat) : (Account.new P j).index = j := rfl

/-- Both wallet constructors establish the structural invariant. -/
theorem walletInv_construct (P : CryptoPrims) (pw m : List Char) (salt idxs : List Nat)
    (wid : List Char) (w0 : MobileWallet)
    (h : MobileWallet.new P pw salt idxs wid = .ok w0 ∨
         MobileWallet.from_mnemonic P m pw salt wid = .ok w0) :
    walletInv P w0 := by
  have hinv : ∀ ks : Keystore, walletInv P
      { id := wid, accounts := [Account.new P 0], active_account := 0,
        keystore := ks, balance := 0, transaction_history := [] } := by
    intro ks
    refine ⟨by simp, rfl, by simp, ?_⟩
    intro i hi
    have h0 : i = 0 := by
      simp at hi
      omega
    subst h0
    show (Account.new P 0).index = 0 % 2 ^ 32
    rw [Account.new_index]
    simp
  cases h with
  | inl h =>
    unfold MobileWallet.new at h
    split at h
    · cases h
    · cases h
      exact hinv _
  | inr h =>
    unfold MobileWallet.from_mnemonic at h
    split at h
    · cases h
    · split at h
      · cases h
      · cases h
        exact hinv _

/-- Every single wallet operation preserves the structural invariant. -/
theorem walletInv_step (P : CryptoPrims) (w : MobileWallet) (op : WalletOp)
    (h : walletInv P w) : walletInv P (stepOp P w op) := by
  obtain ⟨h1, h2, h3, h4⟩ := h
  cases op with
  | setBalance b => exact ⟨h1, h2, h3, h4⟩
  | addTransaction t => exact ⟨h1, h2, h3, h4⟩
  | createTransaction r a fe n => exact ⟨h1, h2, h3, h4⟩
  | addAccount =>
    have hpos : 0 < w.accounts.length := List.length_pos.mpr h1
    refine ⟨?_, ?_, ?_, ?_⟩
    · show w.accounts ++ [Account.new P (w.accounts.length % 2 ^ 32)] ≠ []
      simp
    · show (w.accounts ++ [Account.new P (w.accounts.length % 2 ^ 32)]).getD 0
        defaultAccount = Account.new P 0
      rw [List.getD_append _ _ _ _ hpos]
      exact h2
    · show w.active_account <
        (w.accounts ++ [Account.new P (w.accounts.length % 2 ^ 32)]).length
      rw [List.length_append]
      simp only [List.length_singleton]
      omega
    · intro i hi
      have hi2 : i < w.accounts.length + 1 := by
        simpa [stepOp, MobileWallet.add_account] using hi
      show ((w.accounts ++ [Account.new P (w.accounts.length % 2 ^ 32)]).getD i
        defaultAccount).index = i % 2 ^ 32
      by_cases hlt : i < w.accounts.length
      · rw [List.getD_append _ _ _ _ hlt]
        exact h4 i hlt
      · have hieq : i = w.accounts.length := by omega
        rw [List.getD_append_right _ _ _ _ (by omega)]
        subst hieq
        simp only [Nat.sub_self]
        show (Account.new P (w.accounts.length % 2 ^ 32)).index = w.accounts.length % 2 ^ 32
        exact Account.new_index P _

/-- Claim C9 (amended): every wallet built by `new` or `from_mnemonic` and
evolved by any sequence of `add_account`, `set_balance`, `add_transaction`
and `create_transaction` calls keeps a non-empty account list with the
construction-time account at position 0, a valid `active_account` index,
and the account at position `i` carrying index `i % 2 ^ 32` (equal to `i`
for every `i < 2 ^ 32`; the `as u32` cast in `add_account` wraps beyond
that). -/
theorem c9_wallet_invariant (P : CryptoPrims) (pw m : List Char) (salt idxs : List Nat)
    (wid : List Char) (w0 : MobileWallet)
    (h : MobileWallet.new P pw salt idxs wid = .ok w0 ∨
         MobileWallet.from_mnemonic P m pw salt wid = .ok w0)
    (ops : List WalletOp) :
    walletInv P (ops.foldl (stepOp P) w0) := by
  have h0 := walletInv_construct P pw m salt idxs wid w0 h
  clear h
  induction ops generalizing w0 with
  | nil => exact h0
  | cons op rest ih => exact ih (stepOp P w0 op) (walletInv_step P w0 op h0)

/-- The wallet `MobileWallet.new cPrims pw0 salt0 idxs0 wid0` returns. -/
def w9base : MobileWallet :=
  { id := wid0
    accounts := [Account.new cPrims 0]
    active_account := 0
    keystore := Keystore.new cPrims pw0 salt0 idxs0
    balance := 0
    transaction_history := [] }

/-- Witness for C9 (amended) at concrete inputs. -/
theorem c9_witness :
    walletInv cPrims
      ([WalletOp.addAccount, WalletOp.setBalance 5].foldl (stepOp cPrims) w9base) :=
  c9_wallet_invariant cPrims pw0 m0 salt0 idxs0 wid0 w9base (Or.inl (by decide))
    [WalletOp.addAccount, WalletOp.setBalance 5]

/-- Running `n` `add_account` steps grows the account list by exactly `n`. -/
theorem foldl_addAccount_length (P : CryptoPrims) :
    ∀ (n : Nat) (w : MobileWallet),
      ((List.replicate n WalletOp.addAccount).foldl (stepOp P) w).accounts.length =
        w.accounts.length + n := by
  intro n
  induction n with
  | zero =>
    intro w
    rfl
  | succ k ih =>
    intro w
    have hrep : List.replicate (k + 1) WalletOp.addAccount =
        WalletOp.addAccount :: List.replicate k WalletOp.addAccount := rfl
    rw [hrep, List.foldl_cons, ih]
    show (w.accounts ++ [Account.new P (w.accounts.length % 2 ^ 32)]).length + k =
      w.accounts.length + (k + 1)
    rw [List.length_append]
    simp only [List.length_singleton]
    omega

/-- Positions already filled before a run of `add_account` steps are left
unchanged by it. -/
theorem foldl_addAccount_getD_old (P : CryptoPrims) :
    ∀ (n : Nat) (w : MobileWallet) (i : Nat), i < w.accounts.length →
      ((List.replicate n WalletOp.addAccount).foldl (stepOp P) w).accounts.getD i
          defaultAccount =
        w.accounts.getD i defaultAccount := by
  intro n
  induction n with
  | zero =>
    intro w i _
    rfl
  | succ k ih =>
    intro w i hi
    have hrep : List.replicate (k + 1) WalletOp.addAccount =
        WalletOp.addAccount :: List.replicate k WalletOp.addAccount := rfl
    rw [hrep, List.foldl_cons]
    have hstep : (stepOp P w WalletOp.addAccount).accounts =
        w.accounts ++ [Account.new P (w.accounts.length % 2 ^ 32)] := rfl
    have hlt : i < (stepOp P w WalletOp.addAccount).accounts.length := by
      rw [hstep, List.length_append]
      simp only [List.length_singleton]
      omega
    rw [ih (stepOp P w WalletOp.addAccount) i hlt, hstep,
      List.getD_append _ _ _ _ hi]

/-- Positions filled by a run of `add_account` steps hold the account
derived from the (wrapped) position. -/
theorem foldl_addAccount_getD_new (P : CryptoPrims) :
    ∀ (n : Nat) (w : MobileWallet) (i : Nat),
      w.accounts.length ≤ i → i < w.accounts.length + n →
      ((List.replicate n WalletOp.addAccount).foldl (stepOp P) w).accounts.getD i
          defaultAccount =
        Account.new P (i % 2 ^ 32) := by
  intro n
  induction n with
  | zero =>
    intro w i h1 h2
    omega
  | succ k ih =>
    intro w i h1 h2
    have hrep : List.replicate (k + 1) WalletOp.addAccount =
        WalletOp.addAccount :: List.replicate k WalletOp.addAccount := rfl
    rw [hrep, List.foldl_cons]
    have hstep : (stepOp P w WalletOp.addAccount).accounts =
        w.accounts ++ [Account.new P (w.accounts.length % 2 ^ 32)] := rfl
    have hsteplen : (stepOp P w WalletOp.addAccount).accounts.length =
        w.accounts.length + 1 := by
      rw [hstep, List.length_append]
      simp only [List.length_singleton]
    by_cases hieq : i = w.accounts.length
    · have hlt : i < (stepOp P w WalletOp.addAccount).accounts.length := by omega
      rw [foldl_addAccount_getD_old P k (stepOp P w WalletOp.addAccount) i hlt, hstep,
        List.getD_append_right _ _ _ _ (by omega)]
      subst hieq
      simp only [Nat.sub_self]
      rfl
    · refine ih (stepOp P w WalletOp.addAccount) i (by omega) (by omega)

/-- The wallet obtained from `w9base` after `2 ^ 32` `add_account` calls. -/
def wBig : MobileWallet :=
  (List.replicate (2 ^ 32) WalletOp.addAccount).foldl (stepOp cPrims) w9base

/-- Claim C9 counterexample: `wBig` is reachable from `MobileWallet::new`
by `add_account` calls alone, has more than `2 ^ 32` accounts, and the
account stored at position `2 ^ 32` carries index `0`, not `2 ^ 32`: the
`as u32` cast in `add_account` wrapped. -/
theorem c9_counterexample :
    MobileWallet.new cPrims pw0 salt0 idxs0 wid0 = .ok w9base ∧
    2 ^ 32 < wBig.accounts.length ∧
    (wBig.accounts.getD (2 ^ 32) defaultAccount).index = 0 := by
  have hbase : w9base.accounts.length = 1 := rfl
  have hlen : wBig.accounts.length = 1 + 2 ^ 32 := by
    have := foldl_addAccount_length cPrims (2 ^ 32) w9base
    rw [hbase] at this
    exact this
  refine ⟨by decide, by omega, ?_⟩
  have hget := foldl_addAccount_getD_new cPrims (2 ^ 32) w9base (2 ^ 32)
    (by rw [hbase]; exact Nat.one_le_two_pow) (by omega)
  show ((((List.replicate (2 ^ 32) WalletOp.addAccount).foldl (stepOp cPrims)
    w9base)).accounts.getD (2 ^ 32) defaultAccount).index = 0
  rw [hget, Account.new_index, Nat.mod_self]
